import Mathlib

/-!
Verification of the kube-dump backup pipeline (kube-dump.py).

The pipeline handles arbitrarily-shaped JSON-like resource payloads, so we
embed Python's JSON values as an inductive `Value`, and Python `dict`s as
insertion-ordered association lists `List (String × Value)` (Python 3.7+
dicts preserve insertion order and have unique keys).  Python floats do not
occur in the properties under study; numbers are embedded as `Int`.

Dict primitives mirror CPython semantics:
  * lookup (`d[k]` / `d.get(k)`) returns the first (unique) binding;
  * `d.pop(k, None)` removes the binding for `k` if present;
  * `d[k] = v` overwrites in place (keeping the key's position) when `k` is
    present and appends `(k, v)` at the end otherwise.

Fallible code (Python statements that can raise) is embedded with
`Except String`.
-/

inductive Value where
  | null : Value
  | bool : Bool → Value
  | num : Int → Value
  | str : String → Value
  | arr : List Value → Value
  | obj : List (String × Value) → Value

abbrev Dict := List (String × Value)

/-- Python dict membership test `k in d`. -/
def hasKey (d : Dict) (k : String) : Bool :=
  d.any (fun p => decide (p.1 = k))

/-- Python dict lookup `d.get(k)`: value of the first binding of `k`, if any. -/
def lookupKey (d : Dict) (k : String) : Option Value :=
  (d.find? (fun p => decide (p.1 = k))).map (·.2)

/-- Python `d[k]` under a `k in d` guard (all call sites below are guarded). -/
def getKey (d : Dict) (k : String) : Value :=
  (lookupKey d k).getD .null

/-- Python `d.pop(k, None)`: remove the binding of `k` (keys are unique). -/
def popKey (d : Dict) (k : String) : Dict :=
  d.filter (fun p => decide (p.1 ≠ k))

/-- Python `d[k] = v`: overwrite in place if `k` is present, else append. -/
def setKey (d : Dict) (k : String) (v : Value) : Dict :=
  if hasKey d k then d.map (fun p => if p.1 = k then (k, v) else p)
  else d ++ [(k, v)]

/-- Python truthiness (`if not name:` in `save_object`). -/
def truthy : Value → Bool
  | .null => false
  | .bool b => b
  | .num n => n != 0
  | .str s => s != ""
  | .arr xs => !xs.isEmpty
  | .obj kvs => !kvs.isEmpty

mutual
/-- Python `repr()` rendering, used (via `pyStr`) by the f-string
`f"{name}.yaml"` in `save_object` when the name value is not a string. -/
def pyRepr : Value → String
  | .null => "None"
  | .bool true => "True"
  | .bool false => "False"
  | .num n => toString n
  | .str s => "'" ++ s ++ "'"
  | .arr xs => "[" ++ pyReprList xs ++ "]"
  | .obj kvs => "\x7b" ++ pyReprPairs kvs ++ "\x7d"

def pyReprList : List Value → String
  | [] => ""
  | [v] => pyRepr v
  | v :: rest => pyRepr v ++ ", " ++ pyReprList rest

def pyReprPairs : List (String × Value) → String
  | [] => ""
  | [(k, v)] => "'" ++ k ++ "': " ++ pyRepr v
  | (k, v) :: rest => "'" ++ k ++ "': " ++ pyRepr v ++ ", " ++ pyReprPairs rest
end

/-- Python `str(v)` (what an f-string interpolates). -/
def pyStr : Value → String
  | .str s => s
  | v => pyRepr v

/-- The metadata keys stripped by `clean_resource` in non-detailed mode. -/
def cleanKeys : List String :=
  ["uid", "resourceVersion", "generation", "managedFields", "creationTimestamp"]

/-- `clean_resource(obj, detailed)` (kube-dump.py lines 69-76).

Python mutates `obj` in place and returns it; the functional embedding
returns the final value of the object.  `obj.get("metadata", {})` followed
by `meta.pop(...)` raises (AttributeError/TypeError) when `metadata` is
present but not a dict — embedded as `Except.error`. -/
def clean_resource (obj : Dict) (detailed : Bool) : Except String Dict :=
  if detailed then .ok obj
  else
    let obj1 := popKey obj "status"
    match lookupKey obj1 "metadata" with
    | none =>
        -- meta = {} (the .get default); the pops are no-ops; obj["metadata"] = {}
        .ok (setKey obj1 "metadata" (.obj []))
    | some (.obj meta) =>
        let meta1 := cleanKeys.foldl (fun m k => popKey m k) meta
        .ok (setKey obj1 "metadata" (.obj meta1))
    | some _ => .error "AttributeError: pop on non-dict metadata"

/-- State-passing view of `clean_resource`: Python mutates `obj` in place and
returns the same object, so the call yields (return value, final state of the
argument) with both components equal. -/
def clean_resource_state (obj : Dict) (detailed : Bool) :
    Except String (Dict × Dict) :=
  (clean_resource obj detailed).map (fun r => (r, r))

/-- The per-item injection done by `_run_backup` (lines 484-487) before
cleaning: `item["apiVersion"] = api_version; item["kind"] = kind;
cleaned = clean_resource(item, detailed)`. -/
def dump_item (item : Dict) (apiVersion kind : String) (detailed : Bool) :
    Except String Dict :=
  clean_resource (setKey (setKey item "apiVersion" (.str apiVersion)) "kind" (.str kind)) detailed

/-- Well-formedness used throughout: `metadata`, when present, is a mapping. -/
def metaWellFormed (obj : Dict) : Bool :=
  match lookupKey obj "metadata" with
  | none => true
  | some (.obj _) => true
  | some _ => false

/-- The original metadata mapping of `obj` as `clean_resource` reads it:
`obj.get("metadata", {})` (empty when absent). -/
def metaOf (obj : Dict) : Dict :=
  match lookupKey obj "metadata" with
  | some (.obj meta) => meta
  | _ => []

/-- Destination path of `save_object` (lines 84-87), as path segments
relative to `base_dir`.  Python's `if namespace:` is a truthiness test: the
empty string behaves like `None`. -/
def object_path (name resource_name : String) (ns : Option String) :
    List String :=
  match ns with
  | some ns =>
      if ns != "" then ["namespaces", ns, resource_name, name ++ ".yaml"]
      else ["cluster", resource_name, name ++ ".yaml"]
  | none => ["cluster", resource_name, name ++ ".yaml"]

/-- The fixed leading key order of `save_object` (line 92). -/
def orderedKeys : List String :=
  ["apiVersion", "kind", "metadata", "spec", "data", "stringData", "type"]

/-- The key-reordering loops of `save_object` (lines 91-98): first the keys
of `orderedKeys` that are present, in that order, then the remaining items
in original order. -/
def reorder (obj : Dict) : Dict :=
  let first := orderedKeys.foldl
    (fun acc k => if hasKey obj k then setKey acc k (getKey obj k) else acc) []
  obj.foldl (fun acc p => if hasKey acc p.1 then acc else setKey acc p.1 p.2) first

/-- One manifest file written by `save_object`: its destination path
(relative to `base_dir`; the write also creates the parent directories) and
the reordered mapping handed to `yaml.dump(..., sort_keys=False)`, which
serializes keys in mapping order. -/
structure FileWrite where
  path : List String
  content : Dict

/-- `save_object(obj, base_dir, resource_name, namespace)` (lines 80-101).

Returns `.ok none` when the function returns before touching the
filesystem (`if not name: return`), `.ok (some w)` for a write, and
`.error` when `obj.get("metadata", {})` yields a non-dict and `.get("name")`
raises. -/
def save_object (obj : Dict) (resource_name : String)
    (ns : Option String) : Except String (Option FileWrite) :=
  match lookupKey obj "metadata" with
  | none => .ok none  -- {}.get("name") is None, which is falsy
  | some (.obj meta) =>
      let nameVal := (lookupKey meta "name").getD .null
      if truthy nameVal then
        .ok (some ⟨object_path (pyStr nameVal) resource_name ns, reorder obj⟩)
      else .ok none
  | some _ => .error "AttributeError: get on non-dict metadata"

/-- Outcome of the raw list API call for one dump unit, as seen by the
`try`/`except` in `_run_backup` (lines 490-498 and 519-527):
a decoded response body, an `ApiException` with its HTTP status, or any
other exception (transport errors included). -/
inductive ApiResponse where
  | success : Dict → ApiResponse
  | apiError : Nat → ApiResponse
  | otherError : String → ApiResponse

/-- How one dump unit ended, mirroring the branch taken by the handlers. -/
inductive UnitStatus where
  | dumped : UnitStatus
  | accessDenied : UnitStatus  -- ApiException 403
  | notFound : UnitStatus      -- ApiException 404
  | apiFailed : UnitStatus     -- other ApiException
  | failed : UnitStatus        -- any other exception
deriving DecidableEq

/-- Log levels of the `logger` calls in the two unit handlers. -/
inductive LogLevel where
  | info : LogLevel
  | warning : LogLevel
  | debug : LogLevel
deriving DecidableEq

/-- What each outcome logs: 403 → warning ("Access denied"), 404 → nothing
(`continue`), other ApiException → debug, other exception → debug,
success → info ("Dumping ..."). -/
def unitLog : UnitStatus → Option LogLevel
  | .dumped => some .info
  | .accessDenied => some .warning
  | .notFound => none
  | .apiFailed => some .debug
  | .failed => some .debug

/-- `for item in data.get("items", [])`: absent key iterates the empty
default; a list iterates its elements; a string iterates its characters; a
dict iterates its keys; other values raise TypeError. -/
def getItems (data : Dict) : Except String (List Value) :=
  match lookupKey data "items" with
  | none => .ok []
  | some (.arr xs) => .ok xs
  | some (.str s) => .ok (s.toList.map (fun c => .str (String.singleton c)))
  | some (.obj kvs) => .ok (kvs.map (fun p => .str p.1))
  | some _ => .error "TypeError: not iterable"

/-- Process one element of the `items` sequence: inject apiVersion/kind,
clean, save.  A non-dict element makes `item["apiVersion"] = ...` raise. -/
def process_one (v : Value) (apiVersion kind : String) (detailed : Bool)
    (res_name : String) (ns : Option String) :
    Except String (Option FileWrite) :=
  match v with
  | .obj item =>
      (dump_item item apiVersion kind detailed).bind
        (fun cleaned => save_object cleaned res_name ns)
  | _ => .error "TypeError: item does not support item assignment"

/-- The item loop of one dump unit.  Files written before a raising item are
kept on disk; the exception aborts only the rest of this unit's loop
(second component `false`). -/
def dump_items (items : List Value) (apiVersion kind : String)
    (detailed : Bool) (res_name : String) (ns : Option String) :
    List FileWrite × Bool :=
  match items with
  | [] => ([], true)
  | v :: rest =>
      match process_one v apiVersion kind detailed res_name ns with
      | .error _ => ([], false)
      | .ok w? =>
          let (ws, ok) := dump_items rest apiVersion kind detailed res_name ns
          (w?.toList ++ ws, ok)

/-- One dump unit (lines 475-498 / 503-527): the files it writes and how it
ends.  Every exception escaping the unit body is classified by the
`except ApiException` / `except Exception` handlers; none propagates. -/
def dump_unit (resp : ApiResponse) (apiVersion kind : String)
    (detailed : Bool) (res_name : String) (ns : Option String) :
    List FileWrite × UnitStatus :=
  match resp with
  | .apiError s =>
      if s = 403 then ([], .accessDenied)
      else if s = 404 then ([], .notFound)
      else ([], .apiFailed)
  | .otherError _ => ([], .failed)
  | .success data =>
      match getItems data with
      | .error _ => ([], .failed)
      | .ok items =>
          let (ws, ok) := dump_items items apiVersion kind detailed res_name ns
          (ws, if ok then .dumped else .failed)

/-- One (namespace?, resource type) dump unit of `_run_backup`: the list
response it got together with the injected apiVersion, kind, plural name
and namespace. -/
structure DumpUnit where
  resp : ApiResponse
  apiVersion : String
  kind : String
  res_name : String
  ns : Option String

/-- The sequential unit loops of `_run_backup`: every unit is processed in
order, each inside its own handlers, so the loop itself never stops early. -/
def run_units (units : List DumpUnit) (detailed : Bool) :
    List (List FileWrite × UnitStatus) :=
  units.foldl
    (fun acc u => acc ++ [dump_unit u.resp u.apiVersion u.kind detailed u.res_name u.ns]) []

/-- An archive file in the destination directory matching the rotation glob
`backup-*.tar.{archive_type}`, with its modification time in seconds. -/
structure ArchiveFile where
  name : String
  mtime : Int

/-- `timedelta(days=d).total_seconds()`. -/
def secondsPerDay : Int := 86400

/-- The rotation sweep (lines 555-558): with `cutoff = now - days`, delete
every globbed archive other than the one just produced whose mtime is
strictly before the cutoff.  Returns the names of the deleted files. -/
def rotate_archives (files : List ArchiveFile) (archiveName : String)
    (now : Int) (rotateDays : Int) : List String :=
  (files.filter
    (fun f => f.name != archiveName && f.mtime < now - rotateDays * secondsPerDay)).map (·.name)

/-! ## Dictionary lemmas -/
theorem lookupKey_cons (p : String × Value) (d : Dict) (k : String) :
    lookupKey (p :: d) k = if p.1 = k then some p.2 else lookupKey d k := by
  by_cases h : p.1 = k <;> simp [lookupKey, List.find?_cons, h]

theorem hasKey_cons (p : String × Value) (d : Dict) (k : String) :
    hasKey (p :: d) k = (decide (p.1 = k) || hasKey d k) := by
  simp [hasKey, List.any_cons]

theorem hasKey_eq_isSome (d : Dict) (k : String) :
    hasKey d k = (lookupKey d k).isSome := by
  induction d with
  | nil => rfl
  | cons p rest ih =>
      rw [hasKey_cons, lookupKey_cons]
      by_cases h : p.1 = k <;> simp [h, ih]

theorem lookupKey_popKey (d : Dict) (k k' : String) :
    lookupKey (popKey d k) k' = if k' = k then none else lookupKey d k' := by
  induction d with
  | nil => simp [popKey, lookupKey]
  | cons p rest ih =>
      simp only [popKey] at ih ⊢
      rw [List.filter_cons]
      by_cases hpk : p.1 = k
      · have hb : (decide (p.1 ≠ k) : Bool) = false := by simp [hpk]
        rw [hb]
        simp only [Bool.false_eq_true, if_false, ih]
        rw [lookupKey_cons]
        by_cases hk' : k' = k
        · simp [hk']
        · have : ¬(p.1 = k') := fun h => hk' ((h.symm.trans hpk))
          simp [hk', this]
      · have hb : (decide (p.1 ≠ k) : Bool) = true := by simp [hpk]
        rw [if_pos hb, lookupKey_cons, lookupKey_cons, ih]
        by_cases hpk' : p.1 = k'
        · have hk' : ¬(k' = k) := fun h => hpk (hpk'.trans h)
          simp [hpk', hk']
        · simp [hpk']

theorem lookupKey_append (d₁ d₂ : Dict) (k : String) :
    lookupKey (d₁ ++ d₂) k = (lookupKey d₁ k).or (lookupKey d₂ k) := by
  induction d₁ with
  | nil => simp [lookupKey]
  | cons p rest ih =>
      rw [List.cons_append, lookupKey_cons, lookupKey_cons]
      by_cases h : p.1 = k <;> simp [h, ih]

theorem lookupKey_replaceMap (d : Dict) (k k' : String) (v : Value) (h : k' ≠ k) :
    lookupKey (d.map (fun p => if p.1 = k then (k, v) else p)) k' = lookupKey d k' := by
  induction d with
  | nil => rfl
  | cons p rest ih =>
      rw [List.map_cons]
      by_cases hpk : p.1 = k
      · rw [if_pos hpk, lookupKey_cons, lookupKey_cons]
        have h1 : ¬((k, v).1 = k') := fun hh => h (hh.symm)
        have h2 : ¬(p.1 = k') := fun hh => h ((hh.symm.trans hpk))
        simp [h1, h2, ih]
      · rw [if_neg hpk, lookupKey_cons, lookupKey_cons]
        by_cases hpk' : p.1 = k' <;> simp [hpk', ih]

theorem lookupKey_replaceMap_self (d : Dict) (k : String) (v : Value)
    (h : hasKey d k = true) :
    lookupKey (d.map (fun p => if p.1 = k then (k, v) else p)) k = some v := by
  induction d with
  | nil => simp [hasKey] at h
  | cons p rest ih =>
      rw [hasKey_cons] at h
      rw [List.map_cons]
      by_cases hpk : p.1 = k
      · rw [if_pos hpk, lookupKey_cons]
        simp
      · rw [if_neg hpk, lookupKey_cons]
        rw [if_neg hpk]
        exact ih (by simpa [hpk] using h)

theorem lookupKey_setKey (d : Dict) (k k' : String) (v : Value) :
    lookupKey (setKey d k v) k' = if k' = k then some v else lookupKey d k' := by
  unfold setKey
  by_cases hk : hasKey d k
  · rw [if_pos hk]
    by_cases hk' : k' = k
    · subst hk'; simp [lookupKey_replaceMap_self d k' v hk]
    · simp [hk', lookupKey_replaceMap d k k' v hk']
  · rw [if_neg hk, lookupKey_append]
    have hnone : lookupKey d k = none := by
      have := hasKey_eq_isSome d k
      rcases hl : lookupKey d k with _ | w
      · rfl
      · rw [hl] at this; simp [this] at hk
    have hnil : ∀ kk : String, lookupKey [] kk = none := fun _ => rfl
    by_cases hk' : k' = k
    · subst hk'; simp [hnone, lookupKey_cons, hnil]
    · simp [lookupKey_cons, hnil, Ne.symm hk', hk']

theorem lookupKey_foldl_popKey (ks : List String) (m : Dict) (k : String) :
    lookupKey (ks.foldl (fun m k => popKey m k) m) k =
      if k ∈ ks then none else lookupKey m k := by
  induction ks generalizing m with
  | nil => simp
  | cons k0 rest ih =>
      rw [List.foldl_cons, ih]
      by_cases hk : k ∈ rest
      · simp [hk]
      · rw [lookupKey_popKey]
        by_cases hk0 : k = k0 <;> simp [hk, hk0]

/-- Full characterization of the non-detailed cleaning pass, shared by the
claims about `clean_resource` and the dump pipeline. -/
theorem clean_resource_false_spec (obj : Dict) (h : metaWellFormed obj = true) :
    ∃ d, clean_resource obj false = .ok d ∧
      lookupKey d "status" = none ∧
      (∀ k : String, k ≠ "status" → k ≠ "metadata" → lookupKey d k = lookupKey obj k) ∧
      ∃ meta', lookupKey d "metadata" = some (.obj meta') ∧
        (∀ k ∈ cleanKeys, lookupKey meta' k = none) ∧
        (∀ k : String, k ∉ cleanKeys → lookupKey meta' k = lookupKey (metaOf obj) k) := by
  have hscrut : lookupKey (popKey obj "status") "metadata" = lookupKey obj "metadata" := by
    rw [lookupKey_popKey]; simp
  unfold metaWellFormed at h
  rcases hmeta : lookupKey obj "metadata" with _ | v
  · refine ⟨setKey (popKey obj "status") "metadata" (.obj []), ?_, ?_, ?_, [], ?_, ?_, ?_⟩
    · unfold clean_resource
      simp only [Bool.false_eq_true, if_false, hscrut, hmeta]
    · rw [lookupKey_setKey]
      simp [lookupKey_popKey]
    · intro k hks hkm
      rw [lookupKey_setKey, lookupKey_popKey]
      simp [hks, hkm]
    · rw [lookupKey_setKey]; simp
    · intro k _; rfl
    · intro k _
      unfold metaOf
      rw [hmeta]
  · rw [hmeta] at h
    rcases v with _ | b | n | s | xs | meta
    · simp at h
    · simp at h
    · simp at h
    · simp at h
    · simp at h
    · refine ⟨setKey (popKey obj "status") "metadata"
        (.obj (cleanKeys.foldl (fun m k => popKey m k) meta)), ?_, ?_, ?_,
        cleanKeys.foldl (fun m k => popKey m k) meta, ?_, ?_, ?_⟩
      · unfold clean_resource
        simp only [Bool.false_eq_true, if_false, hscrut, hmeta]
      · rw [lookupKey_setKey]
        simp [lookupKey_popKey]
      · intro k hks hkm
        rw [lookupKey_setKey, lookupKey_popKey]
        simp [hks, hkm]
      · rw [lookupKey_setKey]; simp
      · intro k hk
        rw [lookupKey_foldl_popKey]
        simp [hk]
      · intro k hk
        rw [lookupKey_foldl_popKey]
        unfold metaOf
        rw [hmeta]
        simp [hk]

theorem hasKey_nil (k : String) : hasKey [] k = false := rfl

theorem hasKey_append (d₁ d₂ : Dict) (k : String) :
    hasKey (d₁ ++ d₂) k = (hasKey d₁ k || hasKey d₂ k) := by
  simp [hasKey, List.any_append]

theorem hasKey_iff_mem_keys (d : Dict) (k : String) :
    hasKey d k = true ↔ k ∈ d.map Prod.fst := by
  simp [hasKey, List.any_eq_true]

theorem setKey_of_not_hasKey (d : Dict) (k : String) (v : Value)
    (h : hasKey d k = false) : setKey d k v = d ++ [(k, v)] := by
  unfold setKey
  rw [if_neg (by simp [h])]

theorem pick_loop_spec (ks : List String) (obj : Dict) (acc : Dict)
    (hnd : ks.Nodup) (hdisj : ∀ k ∈ ks, hasKey acc k = false) :
    ks.foldl (fun acc k => if hasKey obj k then setKey acc k (getKey obj k) else acc) acc
      = acc ++ (ks.filter (fun k => hasKey obj k)).map (fun k => (k, getKey obj k)) := by
  induction ks generalizing acc with
  | nil => simp
  | cons k0 rest ih =>
      rw [List.foldl_cons, List.filter_cons]
      rw [List.nodup_cons] at hnd
      rcases hnd with ⟨hk0, hndr⟩
      by_cases h0 : hasKey obj k0
      · rw [if_pos h0, if_pos (by simp [h0])]
        rw [setKey_of_not_hasKey acc k0 (getKey obj k0) (hdisj k0 (by simp))]
        rw [ih (acc ++ [(k0, getKey obj k0)]) hndr ?_]
        · simp
        · intro k hk
          rw [hasKey_append]
          have h1 : hasKey acc k = false := hdisj k (by simp [hk])
          have h2 : k0 ≠ k := by
            intro he; exact hk0 (he ▸ hk)
          simp [h1, hasKey_cons, hasKey_nil, h2]
      · rw [if_neg h0, if_neg (by simp [h0])]
        exact ih acc hndr (fun k hk => hdisj k (by simp [hk]))

theorem rest_loop_spec (l : Dict) (acc : Dict)
    (hnd : (l.map Prod.fst).Nodup) :
    l.foldl (fun acc p => if hasKey acc p.1 then acc else setKey acc p.1 p.2) acc
      = acc ++ l.filter (fun p => !(hasKey acc p.1)) := by
  induction l generalizing acc with
  | nil => simp
  | cons p rest ih =>
      rw [List.foldl_cons, List.filter_cons]
      rw [List.map_cons, List.nodup_cons] at hnd
      rcases hnd with ⟨hp, hndr⟩
      by_cases h0 : hasKey acc p.1
      · rw [if_pos h0]
        simp only [h0, Bool.not_true, Bool.false_eq_true, if_false]
        exact ih acc hndr
      · rw [if_neg h0]
        have hfalse : hasKey acc p.1 = false := by
          rcases hb : hasKey acc p.1
          · rfl
          · exact absurd hb h0
        rw [setKey_of_not_hasKey acc p.1 p.2 hfalse]
        simp only [hfalse, Bool.not_false, if_pos]
        rw [ih (acc ++ [(p.1, p.2)]) hndr]
        rw [List.filter_congr (l := rest)
          (q := fun q => !(hasKey acc q.1)) ?_]
        · simp
        · intro q hq
          have hqp : q.1 ≠ p.1 := by
            intro he
            exact hp (he ▸ (List.mem_map.mpr ⟨q, hq, rfl⟩))
          rw [hasKey_append, hasKey_cons]
          simp [hasKey_nil, Ne.symm hqp]

theorem hasKey_of_mem (d : Dict) (p : String × Value) (hp : p ∈ d) :
    hasKey d p.1 = true := by
  simp only [hasKey, List.any_eq_true]
  exact ⟨p, hp, by simp⟩

theorem hasKey_pairs (ks : List String) (g : String → Value) (k : String) :
    hasKey (ks.map (fun x => (x, g x))) k = decide (k ∈ ks) := by
  induction ks with
  | nil => rfl
  | cons a rest ih =>
      rw [List.map_cons, hasKey_cons, ih]
      by_cases h : a = k
      · simp [h]
      · simp [h, Ne.symm h]

theorem lookupKey_pairs (ks : List String) (g : String → Value) (k : String) :
    lookupKey (ks.map (fun x => (x, g x))) k = if k ∈ ks then some (g k) else none := by
  induction ks with
  | nil => rfl
  | cons a rest ih =>
      rw [List.map_cons, lookupKey_cons, ih]
      by_cases h : a = k
      · subst h; simp
      · simp [h, Ne.symm h]

theorem lookupKey_filter_none (d : Dict) (q : String × Value → Bool) (k : String)
    (h : lookupKey d k = none) : lookupKey (d.filter q) k = none := by
  induction d with
  | nil => rfl
  | cons p rest ih =>
      rw [lookupKey_cons] at h
      by_cases hpk : p.1 = k
      · simp [hpk] at h
      · rw [if_neg hpk] at h
        rw [List.filter_cons]
        by_cases hq : q p
        · rw [if_pos (by simp [hq]), lookupKey_cons, if_neg hpk]
          exact ih h
        · rw [if_neg (by simp [hq])]
          exact ih h

theorem lookupKey_filter_keep (d : Dict) (q : String × Value → Bool) (k : String)
    (h : ∀ p ∈ d, p.1 = k → q p = true) :
    lookupKey (d.filter q) k = lookupKey d k := by
  induction d with
  | nil => rfl
  | cons p rest ih =>
      rw [List.filter_cons, lookupKey_cons]
      by_cases hpk : p.1 = k
      · rw [if_pos (by simp [h p (by simp) hpk]), lookupKey_cons, if_pos hpk, if_pos hpk]
      · rw [if_neg hpk]
        have ihr := ih (fun p hp hpk => h p (by simp [hp]) hpk)
        by_cases hq : q p
        · rw [if_pos (by simp [hq]), lookupKey_cons, if_neg hpk, ihr]
        · rw [if_neg (by simp [hq]), ihr]

theorem reorder_eq (obj : Dict) (hN : (obj.map Prod.fst).Nodup) :
    reorder obj
      = (orderedKeys.filter (fun k => hasKey obj k)).map (fun k => (k, getKey obj k))
        ++ obj.filter (fun p => !(decide (p.1 ∈ orderedKeys))) := by
  unfold reorder
  rw [pick_loop_spec orderedKeys obj [] (by decide) (fun k _ => rfl)]
  rw [List.nil_append]
  rw [rest_loop_spec obj _ hN]
  congr 1
  apply List.filter_congr
  intro p hp
  rw [hasKey_pairs]
  congr 1
  rw [decide_eq_decide]
  rw [List.mem_filter]
  simp [hasKey_of_mem obj p hp]

theorem reorder_keys (obj : Dict) (hN : (obj.map Prod.fst).Nodup) :
    (reorder obj).map Prod.fst
      = orderedKeys.filter (fun k => hasKey obj k)
        ++ (obj.map Prod.fst).filter (fun k => !(decide (k ∈ orderedKeys))) := by
  rw [reorder_eq obj hN, List.map_append, List.map_map]
  congr 1
  · rw [show (Prod.fst ∘ fun k : String => (k, getKey obj k)) = id from rfl, List.map_id]
  · show (obj.filter ((fun k => !(decide (k ∈ orderedKeys))) ∘ Prod.fst)).map Prod.fst = _
    exact (List.filter_map Prod.fst obj).symm

theorem getKey_eq (obj : Dict) (k : String) (h : hasKey obj k = true) :
    some (getKey obj k) = lookupKey obj k := by
  rw [hasKey_eq_isSome] at h
  rcases hv : lookupKey obj k with _ | v
  · rw [hv] at h; simp at h
  · unfold getKey; rw [hv]; rfl

theorem reorder_lookup (obj : Dict) (hN : (obj.map Prod.fst).Nodup) (k : String) :
    lookupKey (reorder obj) k = lookupKey obj k := by
  rw [reorder_eq obj hN, lookupKey_append, lookupKey_pairs]
  by_cases hmem : k ∈ orderedKeys.filter (fun k => hasKey obj k)
  · rw [if_pos hmem]
    show some (getKey obj k) = lookupKey obj k
    exact getKey_eq obj k (by simpa using (List.mem_filter.mp hmem).2)
  · rw [if_neg hmem]
    show lookupKey (obj.filter _) k = lookupKey obj k
    by_cases hk : hasKey obj k
    · have hko : k ∉ orderedKeys := fun ho => hmem (List.mem_filter.mpr ⟨ho, hk⟩)
      apply lookupKey_filter_keep
      intro p _ hpk
      simp [hpk, hko]
    · have : lookupKey obj k = none := by
        rw [hasKey_eq_isSome] at hk
        rcases hv : lookupKey obj k with _ | v
        · rfl
        · rw [hv] at hk; simp at hk
      rw [this]
      exact lookupKey_filter_none obj _ k this

theorem reorder_perm_keys (obj : Dict) (hN : (obj.map Prod.fst).Nodup) :
    List.Perm ((reorder obj).map Prod.fst) (obj.map Prod.fst) := by
  rw [reorder_keys obj hN]
  have h1 : List.Perm (orderedKeys.filter (fun k => hasKey obj k))
      ((obj.map Prod.fst).filter (fun k => decide (k ∈ orderedKeys))) := by
    apply (List.perm_ext_iff_of_nodup (List.Nodup.filter _ (by decide))
      (List.Nodup.filter _ hN)).mpr
    intro a
    rw [List.mem_filter, List.mem_filter]
    rw [← hasKey_iff_mem_keys]
    constructor
    · rintro ⟨h1, h2⟩; exact ⟨h2, by simp [h1]⟩
    · rintro ⟨h1, h2⟩; exact ⟨by simpa using h2, h1⟩
  have h2 := List.filter_append_perm (fun k => decide (k ∈ orderedKeys)) (obj.map Prod.fst)
  exact (h1.append_right _).trans h2

theorem foldl_append_eq_map (l : List α) (f : α → β) (acc : List β) :
    l.foldl (fun acc x => acc ++ [f x]) acc = acc ++ l.map f := by
  induction l generalizing acc with
  | nil => simp
  | cons x rest ih => rw [List.foldl_cons, ih, List.map_cons]; simp

theorem run_units_eq_map (units : List DumpUnit) (detailed : Bool) :
    run_units units detailed
      = units.map (fun u => dump_unit u.resp u.apiVersion u.kind detailed u.res_name u.ns) := by
  unfold run_units
  rw [foldl_append_eq_map]
  simp

theorem clean_resource_total (obj : Dict) (detailed : Bool)
    (h : metaWellFormed obj = true) :
    ∃ d, clean_resource obj detailed = .ok d := by
  cases detailed
  · rcases clean_resource_false_spec obj h with ⟨d, hd, _⟩
    exact ⟨d, hd⟩
  · exact ⟨obj, rfl⟩

/-- Claim C3: for every dump unit, a failing list API call produces no files
and the run continues with the next unit (the result list covers every unit):
ApiException 403 is logged as access-denied (warning) and skipped,
404 is skipped silently, any other ApiException and any other exception
(transport errors included) is logged at debug level and skipped. -/
theorem run_isolates_unit_failures (units : List DumpUnit) (detailed : Bool) (i : Nat) (u : DumpUnit)
    (hu : units[i]? = some u) :
    (run_units units detailed).length = units.length ∧
    (u.resp = .apiError 403 →
      (run_units units detailed)[i]? = some ([], .accessDenied) ∧
      unitLog .accessDenied = some .warning) ∧
    (u.resp = .apiError 404 →
      (run_units units detailed)[i]? = some ([], .notFound) ∧
      unitLog .notFound = none) ∧
    (∀ s, u.resp = .apiError s → s ≠ 403 → s ≠ 404 →
      (run_units units detailed)[i]? = some ([], .apiFailed) ∧
      unitLog .apiFailed = some .debug) ∧
    (∀ m, u.resp = .otherError m →
      (run_units units detailed)[i]? = some ([], .failed) ∧
      unitLog .failed = some .debug) := by
  rw [run_units_eq_map]
  refine ⟨by simp, ?_, ?_, ?_, ?_⟩
  · intro hresp
    refine ⟨?_, rfl⟩
    rw [List.getElem?_map, hu, Option.map_some', hresp]
    rfl
  · intro hresp
    refine ⟨?_, rfl⟩
    rw [List.getElem?_map, hu, Option.map_some', hresp]
    rfl
  · intro s hresp h403 h404
    refine ⟨?_, rfl⟩
    rw [List.getElem?_map, hu, Option.map_some', hresp]
    simp [dump_unit, h403, h404]
  · intro m hresp
    refine ⟨?_, rfl⟩
    rw [List.getElem?_map, hu, Option.map_some', hresp]
    rfl

theorem save_object_content (obj : Dict) (p : String) (ns : Option String)
    (w : FileWrite) (h : save_object obj p ns = .ok (some w)) :
    w.content = reorder obj := by
  unfold save_object at h
  rcases hm : lookupKey obj "metadata" with _ | v
  · rw [hm] at h; simp at h
  · rcases v with _ | b | n | s | xs | meta <;> simp only [hm] at h
    · exact absurd h (by simp)
    · exact absurd h (by simp)
    · exact absurd h (by simp)
    · exact absurd h (by simp)
    · exact absurd h (by simp)
    · by_cases ht : truthy ((lookupKey meta "name").getD .null)
      · rw [if_pos ht] at h
        have := (Option.some.inj (Except.ok.inj h)).symm
        rw [this]
      · rw [if_neg ht] at h
        simp at h

/-- Claim C7: for every manifest whose metadata mapping lacks the key name
(or whose metadata key is absent), save_object performs no filesystem write
at all: it returns before creating any file or directory. -/
theorem save_object_noop_without_name (obj : Dict) (p : String) (ns : Option String)
    (h : lookupKey obj "metadata" = none ∨
      ∃ meta, lookupKey obj "metadata" = some (.obj meta) ∧ lookupKey meta "name" = none) :
    save_object obj p ns = .ok none := by
  unfold save_object
  rcases h with h | ⟨meta, hm, hn⟩
  · rw [h]
  · simp only [hm, hn]
    rfl

/-- Claim C9: save_object also performs no filesystem write when
metadata.name is present but falsy (empty string, null, False, 0, empty
sequence or mapping), not only when the key is absent. -/
theorem save_object_noop_falsy_name (obj meta : Dict) (p : String) (ns : Option String) (v : Value)
    (hm : lookupKey obj "metadata" = some (.obj meta))
    (hn : lookupKey meta "name" = some v) (hv : truthy v = false) :
    save_object obj p ns = .ok none := by
  unfold save_object
  simp only [hm, hn, Option.getD_some]
  rw [if_neg (by simp [hv])]

/-- Claim C6 (amended): for every manifest with metadata.name = n written
with plural name p, a supplied NON-EMPTY namespace ns yields the destination
path namespaces/ns/p/n.yaml and no namespace yields cluster/p/n.yaml; a
supplied empty namespace is treated like no namespace (Python truthiness),
which is the one correction to the claim. -/
theorem save_object_destination_paths (obj meta : Dict) (p n : String)
    (hm : lookupKey obj "metadata" = some (.obj meta))
    (hn : lookupKey meta "name" = some (.str n)) (hne : n ≠ "") :
    (∀ ns, ns ≠ "" →
      save_object obj p (some ns)
        = .ok (some ⟨["namespaces", ns, p, n ++ ".yaml"], reorder obj⟩)) ∧
    save_object obj p none = .ok (some ⟨["cluster", p, n ++ ".yaml"], reorder obj⟩) := by
  have hname : truthy ((lookupKey meta "name").getD .null) = true := by
    rw [hn, Option.getD_some]
    simp [truthy, hne]
  constructor
  · intro ns hns
    unfold save_object
    simp only [hm, hn, Option.getD_some]
    rw [if_pos (by simpa [hn] using hname)]
    unfold object_path pyStr
    simp [hns]
  · unfold save_object
    simp only [hm, hn, Option.getD_some]
    rw [if_pos (by simpa [hn] using hname)]
    rfl

/-- Claim C6 counterexample: with the namespace supplied as the empty
string, save_object writes to cluster/pods/foo.yaml, not to
namespaces//pods/foo.yaml as the unrestricted claim would require. -/
theorem save_object_empty_namespace_goes_to_cluster :
    save_object [("metadata", .obj [("name", .str "foo")])] "pods" (some "")
      = .ok (some ⟨["cluster", "pods", "foo.yaml"],
          [("metadata", .obj [("name", .str "foo")])]⟩) ∧
    (["cluster", "pods", "foo.yaml"] : List String)
      ≠ ["namespaces", "", "pods", "foo.yaml"] := ⟨rfl, by simp⟩

/-- Claim C5: for every manifest written (with unique keys, as Python
dicts guarantee), the serialized key order is: the keys of
apiVersion, kind, metadata, spec, data, stringData, type that are present,
first and in exactly that order, then all remaining keys in the manifest
original relative order; in particular the input with keys
status, spec, apiVersion, kind, metadata serializes as
apiVersion, kind, metadata, spec, status. -/
theorem save_object_key_order (obj : Dict) (p : String) (ns : Option String) (w : FileWrite)
    (hN : (obj.map Prod.fst).Nodup) (hw : save_object obj p ns = .ok (some w)) :
    w.content.map Prod.fst
      = orderedKeys.filter (fun k => hasKey obj k)
        ++ (obj.map Prod.fst).filter (fun k => !(decide (k ∈ orderedKeys))) ∧
    (reorder [("status", .null), ("spec", .null), ("apiVersion", .null),
        ("kind", .null), ("metadata", .null)]).map Prod.fst
      = ["apiVersion", "kind", "metadata", "spec", "status"] := by
  refine ⟨?_, rfl⟩
  rw [save_object_content obj p ns w hw]
  exact reorder_keys obj hN

/-- Claim C10: the key reordering of save_object is content-preserving on
every mapping with unique keys: every key keeps its value and the key
multiset is unchanged (no key dropped, duplicated, or rebound). -/
theorem reorder_content_preserving (obj : Dict) (hN : (obj.map Prod.fst).Nodup) :
    (∀ k, lookupKey (reorder obj) k = lookupKey obj k) ∧
    List.Perm ((reorder obj).map Prod.fst) (obj.map Prod.fst) :=
  ⟨fun k => reorder_lookup obj hN k, reorder_perm_keys obj hN⟩

/-- Claim C8: archive rotation deletes only archive files whose age
exceeds the retention window (strictly older than now minus
archive_rotate_days days) and never deletes the archive file produced
earlier in the same run, regardless of timestamps. -/
theorem rotate_archives_only_old_never_current (files : List ArchiveFile) (archiveName : String)
    (now rotateDays : Int) (n : String)
    (hn : n ∈ rotate_archives files archiveName now rotateDays) :
    (∃ f ∈ files, f.name = n ∧ now - f.mtime > rotateDays * secondsPerDay) ∧
    n ≠ archiveName ∧
    archiveName ∉ rotate_archives files archiveName now rotateDays := by
  have main : ∀ m ∈ rotate_archives files archiveName now rotateDays,
      (∃ f ∈ files, f.name = m ∧ now - f.mtime > rotateDays * secondsPerDay) ∧
      m ≠ archiveName := by
    intro m hm
    simp only [rotate_archives, List.mem_map, List.mem_filter] at hm
    rcases hm with ⟨f, ⟨hf, hcond⟩, rfl⟩
    rw [Bool.and_eq_true, bne_iff_ne, decide_eq_true_eq] at hcond
    exact ⟨⟨f, hf, rfl, by omega⟩, hcond.1⟩
  refine ⟨(main n hn).1, (main n hn).2, ?_⟩
  intro hmem
  exact (main archiveName hmem).2 rfl

/-- Claim C2 (amended): every manifest produced by the pipeline
(apiVersion/kind injection followed by cleaning) has the top-level keys
apiVersion and kind bound to the injected values, and in non-detailed mode
also a metadata mapping; the original claim additionally promised metadata
(with at least the key name) in every mode, which the code does not
guarantee — see the counterexample. -/
theorem dump_item_guaranteed_keys (item : Dict) (av kd : String) (detailed : Bool)
    (h : metaWellFormed item = true) :
    ∃ d, dump_item item av kd detailed = .ok d ∧
      lookupKey d "apiVersion" = some (.str av) ∧
      lookupKey d "kind" = some (.str kd) ∧
      (detailed = false → ∃ m, lookupKey d "metadata" = some (.obj m)) := by
  have hmeta_inj :
      lookupKey (setKey (setKey item "apiVersion" (.str av)) "kind" (.str kd)) "metadata"
        = lookupKey item "metadata" := by
    rw [lookupKey_setKey, lookupKey_setKey]; simp
  have hwf : metaWellFormed (setKey (setKey item "apiVersion" (.str av)) "kind" (.str kd)) = true := by
    unfold metaWellFormed at h ⊢
    rw [hmeta_inj]; exact h
  have hav : lookupKey (setKey (setKey item "apiVersion" (.str av)) "kind" (.str kd)) "apiVersion"
      = some (.str av) := by
    rw [lookupKey_setKey]
    rw [if_neg (by decide), lookupKey_setKey, if_pos rfl]
  have hkd : lookupKey (setKey (setKey item "apiVersion" (.str av)) "kind" (.str kd)) "kind"
      = some (.str kd) := by
    rw [lookupKey_setKey, if_pos rfl]
  cases detailed
  · rcases clean_resource_false_spec (setKey (setKey item "apiVersion" (.str av)) "kind" (.str kd)) hwf
      with ⟨d, hd, _, hpres, meta', hm', _⟩
    refine ⟨d, hd, ?_, ?_, fun _ => ⟨meta', hm'⟩⟩
    · rw [hpres "apiVersion" (by decide) (by decide)]; exact hav
    · rw [hpres "kind" (by decide) (by decide)]; exact hkd
  · exact ⟨_, rfl, hav, hkd, fun hcontra => by simp at hcontra⟩

/-- Claim C2 counterexample: an empty raw item normalized in detailed mode
has no metadata key at all, and in non-detailed mode its metadata is the
empty mapping, which does not contain name. -/
theorem dump_item_metadata_not_guaranteed :
    dump_item [] "v1" "Namespace" true
      = .ok [("apiVersion", .str "v1"), ("kind", .str "Namespace")] ∧
    lookupKey [("apiVersion", Value.str "v1"), ("kind", Value.str "Namespace")] "metadata" = none ∧
    dump_item [] "v1" "Namespace" false
      = .ok [("apiVersion", .str "v1"), ("kind", .str "Namespace"), ("metadata", .obj [])] ∧
    lookupKey ([] : Dict) "name" = none := ⟨rfl, rfl, rfl, rfl⟩

/-- Claim C4 counterexample: clean_resource does NOT leave its input
argument unchanged: Python mutates the dict in place (and returns the same
object), so after cleaning an item that had a status key the argument
differs from its initial value. -/
theorem clean_resource_mutates_argument :
    clean_resource_state [("status", Value.null)] false
      = .ok ([("metadata", Value.obj [])], [("metadata", Value.obj [])]) ∧
    ([("metadata", Value.obj [])] : Dict) ≠ [("status", Value.null)] := by
  refine ⟨rfl, ?_⟩
  simp

/-- Claim C4 (amended): clean_resource is total on every well-formed
mapping input and its result depends only on its arguments, but it is not
free of effects on its argument: it mutates the dict in place, the final
state of the argument being exactly the returned manifest. -/
theorem clean_resource_total_and_inplace (obj : Dict) (detailed : Bool) (h : metaWellFormed obj = true) :
    ∃ r, clean_resource_state obj detailed = .ok (r, r) := by
  rcases clean_resource_total obj detailed h with ⟨d, hd⟩
  refine ⟨d, ?_⟩
  unfold clean_resource_state
  rw [hd]
  rfl

/-- Claim C1: for every mapping item (with a well-formed metadata mapping),
non-detailed normalization removes exactly the top-level key status and the
keys uid, resourceVersion, generation, managedFields, creationTimestamp from
the metadata mapping (each only if present) and removes no other key at any
level (every other top-level binding, and every other metadata binding, keeps
its original value); with detailed=true no key is removed. -/
theorem clean_resource_removes_exactly (obj : Dict) (h : metaWellFormed obj = true) :
    clean_resource obj true = .ok obj ∧
    ∃ d, clean_resource obj false = .ok d ∧
      lookupKey d "status" = none ∧
      (∀ k : String, k ≠ "status" → k ≠ "metadata" → lookupKey d k = lookupKey obj k) ∧
      ∃ meta', lookupKey d "metadata" = some (.obj meta') ∧
        (∀ k ∈ cleanKeys, lookupKey meta' k = none) ∧
        (∀ k : String, k ∉ cleanKeys → lookupKey meta' k = lookupKey (metaOf obj) k) :=
  ⟨rfl, clean_resource_false_spec obj h⟩

theorem clean_resource_removes_exactly_witness :
    metaWellFormed [("status", Value.null),
        ("metadata", Value.obj [("name", Value.str "x"), ("uid", Value.str "u")]),
        ("spec", Value.null)] = true ∧
    (clean_resource [("status", Value.null),
        ("metadata", Value.obj [("name", Value.str "x"), ("uid", Value.str "u")]),
        ("spec", Value.null)] true
      = .ok [("status", Value.null),
        ("metadata", Value.obj [("name", Value.str "x"), ("uid", Value.str "u")]),
        ("spec", Value.null)] ∧
    ∃ d, clean_resource [("status", Value.null),
        ("metadata", Value.obj [("name", Value.str "x"), ("uid", Value.str "u")]),
        ("spec", Value.null)] false = .ok d ∧
      lookupKey d "status" = none ∧
      (∀ k : String, k ≠ "status" → k ≠ "metadata" →
        lookupKey d k = lookupKey [("status", Value.null),
          ("metadata", Value.obj [("name", Value.str "x"), ("uid", Value.str "u")]),
          ("spec", Value.null)] k) ∧
      ∃ meta', lookupKey d "metadata" = some (.obj meta') ∧
        (∀ k ∈ cleanKeys, lookupKey meta' k = none) ∧
        (∀ k : String, k ∉ cleanKeys →
          lookupKey meta' k = lookupKey (metaOf [("status", Value.null),
            ("metadata", Value.obj [("name", Value.str "x"), ("uid", Value.str "u")]),
            ("spec", Value.null)]) k)) :=
  ⟨rfl, clean_resource_removes_exactly _ rfl⟩

theorem dump_item_guaranteed_keys_witness :
    metaWellFormed [("metadata", Value.obj [("name", Value.str "x")])] = true ∧
    ∃ d, dump_item [("metadata", Value.obj [("name", Value.str "x")])] "v1" "Pod" false = .ok d ∧
      lookupKey d "apiVersion" = some (.str "v1") ∧
      lookupKey d "kind" = some (.str "Pod") ∧
      (false = false → ∃ m, lookupKey d "metadata" = some (.obj m)) :=
  ⟨rfl, dump_item_guaranteed_keys _ "v1" "Pod" false rfl⟩

theorem run_isolates_unit_failures_witness :
    ([⟨ApiResponse.apiError 403, "v1", "Pod", "pods", some "ns1"⟩] :
        List DumpUnit)[0]? = some ⟨ApiResponse.apiError 403, "v1", "Pod", "pods", some "ns1"⟩ ∧
    ((run_units [⟨ApiResponse.apiError 403, "v1", "Pod", "pods", some "ns1"⟩] false).length
        = ([⟨ApiResponse.apiError 403, "v1", "Pod", "pods", some "ns1"⟩] : List DumpUnit).length ∧
    ((⟨ApiResponse.apiError 403, "v1", "Pod", "pods", some "ns1"⟩ : DumpUnit).resp = .apiError 403 →
      (run_units [⟨ApiResponse.apiError 403, "v1", "Pod", "pods", some "ns1"⟩] false)[0]?
          = some ([], .accessDenied) ∧
      unitLog .accessDenied = some .warning) ∧
    ((⟨ApiResponse.apiError 403, "v1", "Pod", "pods", some "ns1"⟩ : DumpUnit).resp = .apiError 404 →
      (run_units [⟨ApiResponse.apiError 403, "v1", "Pod", "pods", some "ns1"⟩] false)[0]?
          = some ([], .notFound) ∧
      unitLog .notFound = none) ∧
    (∀ s, (⟨ApiResponse.apiError 403, "v1", "Pod", "pods", some "ns1"⟩ : DumpUnit).resp = .apiError s →
        s ≠ 403 → s ≠ 404 →
      (run_units [⟨ApiResponse.apiError 403, "v1", "Pod", "pods", some "ns1"⟩] false)[0]?
          = some ([], .apiFailed) ∧
      unitLog .apiFailed = some .debug) ∧
    (∀ m, (⟨ApiResponse.apiError 403, "v1", "Pod", "pods", some "ns1"⟩ : DumpUnit).resp = .otherError m →
      (run_units [⟨ApiResponse.apiError 403, "v1", "Pod", "pods", some "ns1"⟩] false)[0]?
          = some ([], .failed) ∧
      unitLog .failed = some .debug)) :=
  ⟨rfl, run_isolates_unit_failures _ false 0 _ rfl⟩

theorem clean_resource_total_and_inplace_witness :
    metaWellFormed [("status", Value.null)] = true ∧
    ∃ r, clean_resource_state [("status", Value.null)] false = .ok (r, r) :=
  ⟨rfl, clean_resource_total_and_inplace _ false rfl⟩

theorem save_object_key_order_witness :
    ((([("status", Value.null), ("spec", Value.null), ("apiVersion", Value.null),
        ("kind", Value.null), ("metadata", Value.obj [("name", Value.str "foo")])] : Dict).map
        Prod.fst).Nodup ∧
      save_object [("status", Value.null), ("spec", Value.null), ("apiVersion", Value.null),
          ("kind", Value.null), ("metadata", Value.obj [("name", Value.str "foo")])] "pods" (some "ns1")
        = .ok (some ⟨["namespaces", "ns1", "pods", "foo.yaml"],
            [("apiVersion", Value.null), ("kind", Value.null),
             ("metadata", Value.obj [("name", Value.str "foo")]),
             ("spec", Value.null), ("status", Value.null)]⟩)) ∧
    ((⟨["namespaces", "ns1", "pods", "foo.yaml"],
        [("apiVersion", Value.null), ("kind", Value.null),
         ("metadata", Value.obj [("name", Value.str "foo")]),
         ("spec", Value.null), ("status", Value.null)]⟩ : FileWrite).content.map Prod.fst
      = orderedKeys.filter (fun k => hasKey [("status", Value.null), ("spec", Value.null),
          ("apiVersion", Value.null), ("kind", Value.null),
          ("metadata", Value.obj [("name", Value.str "foo")])] k)
        ++ (([("status", Value.null), ("spec", Value.null), ("apiVersion", Value.null),
          ("kind", Value.null), ("metadata", Value.obj [("name", Value.str "foo")])] : Dict).map
          Prod.fst).filter (fun k => !(decide (k ∈ orderedKeys))) ∧
    (reorder [("status", .null), ("spec", .null), ("apiVersion", .null),
        ("kind", .null), ("metadata", .null)]).map Prod.fst
      = ["apiVersion", "kind", "metadata", "spec", "status"]) :=
  ⟨⟨by decide, rfl⟩, save_object_key_order _ "pods" (some "ns1") _ (by decide) rfl⟩

theorem save_object_destination_paths_witness :
    (lookupKey [("metadata", Value.obj [("name", Value.str "foo")])] "metadata"
        = some (.obj [("name", Value.str "foo")]) ∧
      lookupKey [("name", Value.str "foo")] "name" = some (.str "foo") ∧
      "foo" ≠ "") ∧
    ((∀ ns, ns ≠ "" →
      save_object [("metadata", Value.obj [("name", Value.str "foo")])] "pods" (some ns)
        = .ok (some ⟨["namespaces", ns, "pods", "foo" ++ ".yaml"],
            reorder [("metadata", Value.obj [("name", Value.str "foo")])]⟩)) ∧
    save_object [("metadata", Value.obj [("name", Value.str "foo")])] "pods" none
      = .ok (some ⟨["cluster", "pods", "foo" ++ ".yaml"],
          reorder [("metadata", Value.obj [("name", Value.str "foo")])]⟩)) :=
  ⟨⟨rfl, rfl, by decide⟩, save_object_destination_paths _ _ "pods" "foo" rfl rfl (by decide)⟩

theorem save_object_noop_without_name_witness :
    (lookupKey [("metadata", Value.obj [])] "metadata" = none ∨
      ∃ meta, lookupKey [("metadata", Value.obj [])] "metadata" = some (.obj meta) ∧
        lookupKey meta "name" = none) ∧
    save_object [("metadata", Value.obj [])] "pods" (some "ns1") = .ok none :=
  ⟨Or.inr ⟨[], rfl, rfl⟩, save_object_noop_without_name _ "pods" (some "ns1") (Or.inr ⟨[], rfl, rfl⟩)⟩

theorem rotate_archives_only_old_never_current_witness :
    "backup-a.tar.gz" ∈ rotate_archives [⟨"backup-a.tar.gz", 0⟩, ⟨"backup-b.tar.gz", 700000⟩]
        "backup-b.tar.gz" 700000 7 ∧
    ((∃ f ∈ ([⟨"backup-a.tar.gz", 0⟩, ⟨"backup-b.tar.gz", 700000⟩] : List ArchiveFile),
        f.name = "backup-a.tar.gz" ∧ 700000 - f.mtime > 7 * secondsPerDay) ∧
    "backup-a.tar.gz" ≠ "backup-b.tar.gz" ∧
    "backup-b.tar.gz" ∉ rotate_archives [⟨"backup-a.tar.gz", 0⟩, ⟨"backup-b.tar.gz", 700000⟩]
        "backup-b.tar.gz" 700000 7) :=
  ⟨by decide, rotate_archives_only_old_never_current _ _ 700000 7 _ (by decide)⟩

theorem save_object_noop_falsy_name_witness :
    (lookupKey [("metadata", Value.obj [("name", Value.str "")])] "metadata"
        = some (.obj [("name", Value.str "")]) ∧
      lookupKey [("name", Value.str "")] "name" = some (.str "") ∧
      truthy (.str "") = false) ∧
    save_object [("metadata", Value.obj [("name", Value.str "")])] "pods" (some "ns1") = .ok none :=
  ⟨⟨rfl, rfl, rfl⟩, save_object_noop_falsy_name _ _ "pods" (some "ns1") _ rfl rfl rfl⟩

theorem reorder_content_preserving_witness :
    (([("b", Value.null), ("apiVersion", Value.null)] : Dict).map Prod.fst).Nodup ∧
    ((∀ k, lookupKey (reorder [("b", Value.null), ("apiVersion", Value.null)]) k
        = lookupKey [("b", Value.null), ("apiVersion", Value.null)] k) ∧
    List.Perm ((reorder [("b", Value.null), ("apiVersion", Value.null)]).map Prod.fst)
      (([("b", Value.null), ("apiVersion", Value.null)] : Dict).map Prod.fst)) :=
  ⟨by decide, reorder_content_preserving _ (by decide)⟩
